import Mathlib

/-!
Shallow embedding of the bounded-concurrency proving pipeline of
`src/clients/cli/src/prover/pipeline.rs` (struct `ProvingPipeline`) and its
high-level wrapper `src/clients/cli/src/prover/handlers.rs`.

External collaborators (the input parser, the proving engine, the failure
reporter, the `Task`/`TaskType`/`ProverError` types, the Keccak digest and the
postcard serializer) live outside `src/`; they are modelled abstractly, from
the spec, as fields of a `Collaborators` bundle, parametrised over the opaque
types `S` (structured input), `P` (proof artifact) and `E` (environment).

Concurrency model: `futures::stream::iter(...).buffer_unordered(num_workers)`
followed by `try_collect` is embedded by an explicit completion order
`order : List Nat` (a permutation of the unit indices); the collected stream is
the per-unit outputs taken in that order, short-circuiting at the first error
(fail-fast `try_collect` semantics).  Quantifying over all permutations
subsumes every completion order achievable under any worker budget, so the
`num_workers` argument is kept for interface fidelity but does not constrain
`order`.  A Rust panic (the `expect` inside `generate_proof_hash`) is modelled
as `none` in an outer `Option`; spawned `track_verification_failed` reports and
engine invocations are made observable as explicit outputs.
-/

namespace NexusCLI

/-- Modelled from the spec: the closed `TaskType` enumeration from
`nexus_orchestrator` (not under `src/`); §3 requires at minimum `Individual`,
`ProofHash` and `AllProofHashes`. -/
inductive TaskType where
  | Individual : TaskType
  | ProofHash : TaskType
  | AllProofHashes : TaskType
deriving DecidableEq, Repr

/-- Modelled from the spec: the `ProverError` taxonomy of §7.  `MalformedTask`,
`Stwo` (computation failure) and `GuestProgram` are named in `pipeline.rs`
itself; `Other` stands for every remaining engine-side error kind
(`EngineError::Other` in §7), since `types.rs` is not under `src/`. -/
inductive ProverError where
  | MalformedTask : String → ProverError
  | Stwo : String → ProverError
  | GuestProgram : String → ProverError
  | Other : String → ProverError
deriving DecidableEq, Repr

/-- Modelled from the spec: a `Task` (from `task.rs`, not under `src/`) carries
a program identifier, a task type and an ordered sequence of raw sub-input byte
buffers (§3); bytes are `Nat` here. -/
structure Task where
  program_id : String
  task_type : TaskType
  inputs : List (List Nat)
deriving DecidableEq, Repr

/-- Modelled from the spec: `task.all_inputs()` returns the ordered raw
sub-input sequence (§3, used at `pipeline.rs` line 42). -/
def Task.all_inputs (t : Task) : List (List Nat) := t.inputs

/-- One detached failure report, as submitted by
`tokio::spawn(track_verification_failed(task, msg, environment, client_id))`
at `pipeline.rs` lines 70-75: task snapshot, message, environment, client
identity (§6 Reporter). -/
structure Report (E : Type) where
  task : Task
  message : String
  environment : E
  client_id : String

/-- Modelled from the spec: the external collaborators of §6, consumed by the
pipeline through narrow interfaces.  `parse_triple_input` is
`InputParser::parse_triple_input`; `prove_and_validate` is
`ProvingEngine::prove_and_validate`; `serialize_proof` is
`postcard::to_allocvec` (fallible, hence `Option`); `keccak256` is the
`Keccak256::digest` primitive; `combineHashes` is `Task::combine_proof_hashes`;
`showError` is the `Display` rendering of a `ProverError` used when formatting
the failure message. -/
structure Collaborators (S P E : Type) where
  parse_triple_input : List Nat → Except ProverError S
  prove_and_validate : S → Task → E → String → Except ProverError P
  serialize_proof : P → Option (List Nat)
  keccak256 : List Nat → List Nat
  combineHashes : List String → String
  showError : ProverError → String

/-- Lowercase hexadecimal digit for a value below 16, as produced by the
`{:x}` format. -/
def hexChar (n : Nat) : Char :=
  if n < 10 then Char.ofNat (48 + n) else Char.ofNat (87 + n)

/-- Two lowercase hexadecimal digits of one byte. -/
def byteToHex (b : Nat) : List Char := [hexChar (b / 16 % 16), hexChar (b % 16)]

/-- Lowercase hexadecimal rendering of a byte string, as produced by
`format!("{:x}", digest)` at `pipeline.rs` line 113. -/
def bytesToHex (bs : List Nat) : String := String.mk ((bs.map byteToHex).flatten)

variable {S P E : Type}

/-- Embeds `ProvingPipeline::generate_proof_hash` (`pipeline.rs` lines
111-114): serialize the proof with postcard, Keccak256-digest the bytes, render
in lowercase hex.  The `expect` on a failed serialization is a panic, modelled
as `none`. -/
def generate_proof_hash (C : Collaborators S P E) (proof : P) : Option String :=
  match C.serialize_proof proof with
  | none => none
  | some proof_bytes => some (bytesToHex (C.keccak256 proof_bytes))

/-- Embeds `ProvingPipeline::combine_proof_hashes` (`pipeline.rs` lines
117-125): `AllProofHashes` and `ProofHash` use the external combiner on the
full list, every other task type takes the first hash,
`first().cloned().unwrap_or_default()`. -/
def combine_proof_hashes (C : Collaborators S P E) (task : Task)
    (proof_hashes : List String) : String :=
  match task.task_type with
  | .AllProofHashes => C.combineHashes proof_hashes
  | .ProofHash => C.combineHashes proof_hashes
  | _ => (proof_hashes.head?).getD ""

/-- Whether an engine error kind triggers the failure-report branch of the
`map_err` at `pipeline.rs` lines 66-79: exactly `Stwo` and `GuestProgram`. -/
def reportable : ProverError → Bool
  | .Stwo _ => true
  | .GuestProgram _ => true
  | _ => false

/-- Everything one unit of the fan-out produces: its result (`none` models a
panic in `generate_proof_hash`; otherwise error or `(proof, hash, index)`
triple), the detached failure reports it spawned, and how many engine
invocations it made. -/
structure UnitOutput (P E : Type) where
  result : Option (Except ProverError (P × String × Nat))
  reports : List (Report E)
  engineCalls : Nat

/-- Embeds the per-sub-input async block of `prove_fib_task` (`pipeline.rs`
lines 56-85): parse the raw bytes, invoke the engine, on a `Stwo` or
`GuestProgram` failure spawn one `track_verification_failed` report whose
message embeds the origin index, propagate the error unchanged, and on success
hash the proof and return `(proof, hash, input_index)`. -/
def processUnit (C : Collaborators S P E) (task : Task) (environment : E)
    (client_id : String) (input_index : Nat) (input_data : List Nat) :
    UnitOutput P E :=
  match C.parse_triple_input input_data with
  | .error e => ⟨some (.error e), [], 0⟩
  | .ok inputs =>
    match C.prove_and_validate inputs task environment client_id with
    | .error e =>
      if reportable e then
        ⟨some (.error e),
          [⟨task, "Input " ++ toString input_index ++ ": " ++ C.showError e,
            environment, client_id⟩], 1⟩
      else
        ⟨some (.error e), [], 1⟩
    | .ok proof =>
      match generate_proof_hash C proof with
      | none => ⟨none, [], 1⟩
      | some proof_hash => ⟨some (.ok (proof, proof_hash, input_index)), [], 1⟩

/-- The units of a task in origin order: `all_inputs.into_iter().enumerate()`
mapped through the per-unit block (`pipeline.rs` line 55). -/
def taskUnits (C : Collaborators S P E) (task : Task) (environment : E)
    (client_id : String) : List (UnitOutput P E) :=
  (task.all_inputs).enum.map fun p => processUnit C task environment client_id p.1 p.2

/-- The unit outputs in completion order: the `buffer_unordered` stream yields
each unit exactly once, in the order given by the scheduler. -/
def completedUnits (C : Collaborators S P E) (task : Task) (environment : E)
    (client_id : String) (order : List Nat) : List (UnitOutput P E) :=
  order.filterMap fun k => (taskUnits C task environment client_id).get? k

/-- Embeds `try_collect` over the completion-ordered stream (`pipeline.rs`
lines 89-95): consume unit outputs in order, stopping at the first panic or
error; on all-success return the triples in completion order.  Also sums the
engine invocations of the consumed units. -/
def consumeUnits : List (UnitOutput P E) →
    Option (Except ProverError (List (P × String × Nat))) × Nat
  | [] => (some (.ok []), 0)
  | u :: rest =>
    match u.result with
    | none => (none, u.engineCalls)
    | some (.error e) => (some (.error e), u.engineCalls)
    | some (.ok t) =>
      match consumeUnits rest with
      | (none, n) => (none, u.engineCalls + n)
      | (some (.error e), n) => (some (.error e), u.engineCalls + n)
      | (some (.ok ts), n) => (some (.ok (t :: ts)), u.engineCalls + n)

/-- The key order used by `results.sort_by_key(|(_, _, index)| *index)`. -/
def keyLe (a b : P × String × Nat) : Prop := a.2.2 ≤ b.2.2

/-- Strict version of `keyLe`, used to pin down the sorted list uniquely. -/
def keyLt (a b : P × String × Nat) : Prop := a.2.2 < b.2.2

instance : DecidableRel (keyLe (P := P)) := fun a b => Nat.decLe a.2.2 b.2.2

instance : IsTotal (P × String × Nat) keyLe := ⟨fun a b => Nat.le_total a.2.2 b.2.2⟩

instance : IsTrans (P × String × Nat) keyLe := ⟨fun _ _ _ h1 h2 => Nat.le_trans h1 h2⟩

instance : IsAntisymm (P × String × Nat) keyLt :=
  ⟨fun _ _ h1 h2 => absurd h2 (Nat.lt_asymm h1)⟩

/-- Embeds `ProvingPipeline::prove_fib_task` (`pipeline.rs` lines 36-108):
reject an empty input sequence with `MalformedTask`, otherwise run the fan-out,
fail fast on the first error in completion order, and on all-success sort the
triples by origin index, split into proof and hash lists, and combine the
hashes.  First component: `none` models a panic, otherwise the `Result`; second
component: total engine invocations of the consumed units. -/
def prove_fib_task (C : Collaborators S P E) (task : Task) (environment : E)
    (client_id : String) (num_workers : Nat) (order : List Nat) :
    Option (Except ProverError (List P × String × List String)) × Nat :=
  if (task.all_inputs).isEmpty then
    (some (.error (.MalformedTask "No inputs provided for task")), 0)
  else
    match consumeUnits (completedUnits C task environment client_id order) with
    | (none, n) => (none, n)
    | (some (.error e), n) => (some (.error e), n)
    | (some (.ok results), n) =>
      let sorted := List.insertionSort keyLe results
      let proof_hashes := sorted.map fun t => t.2.1
      let all_proofs := sorted.map fun t => t.1
      (some (.ok (all_proofs, combine_proof_hashes C task proof_hashes, proof_hashes)), n)

/-- Embeds `ProvingPipeline::prove_authenticated` (`pipeline.rs` lines 18-33):
dispatch on `program_id`; only `"fib_input_initial"` is recognized, anything
else is rejected as `MalformedTask` before any unit runs. -/
def prove_authenticated (C : Collaborators S P E) (task : Task) (environment : E)
    (client_id : String) (num_workers : Nat) (order : List Nat) :
    Option (Except ProverError (List P × String × List String)) × Nat :=
  if task.program_id = "fib_input_initial" then
    prove_fib_task C task environment client_id num_workers order
  else
    (some (.error (.MalformedTask ("Unsupported program ID: " ++ task.program_id))), 0)

/-- Successful payload of a unit output, if any. -/
def okOf (u : UnitOutput P E) : Option (P × String × Nat) :=
  match u.result with
  | some (.ok t) => some t
  | _ => none

/-- A concrete collaborator bundle used to evaluate the pipeline on closed
inputs: structured inputs are the raw bytes themselves, proofs are booleans.
Raw input `[9]` fails to parse; structured input `[1]` fails the engine with a
computation failure, `[2]` with a guest-program failure, `[3]` with another
kind; everything else proves to `true`, which serializes to `[171, 205]`. -/
def exCollab : Collaborators (List Nat) Bool Unit where
  parse_triple_input := fun bs =>
    if bs = [9] then .error (.Other "bad input") else .ok bs
  prove_and_validate := fun si _ _ _ =>
    if si = [1] then .error (.Stwo "constraints not satisfied")
    else if si = [2] then .error (.GuestProgram "guest exit")
    else if si = [3] then .error (.Other "out of memory")
    else .ok true
  serialize_proof := fun b => if b then some [171, 205] else none
  keccak256 := fun bs => bs.map fun b => (b + 1) % 256
  combineHashes := fun hs => String.intercalate "|" hs
  showError := fun e =>
    match e with
    | .MalformedTask m => m
    | .Stwo m => m
    | .GuestProgram m => m
    | .Other m => m

/-- A concrete three-input task with a recognized program identifier. -/
def exTask : Task := ⟨"fib_input_initial", .Individual, [[0], [4], [5]]⟩

/-- The same task under the `AllProofHashes` combination policy, two inputs. -/
def exTaskAll : Task := ⟨"fib_input_initial", .AllProofHashes, [[0], [4]]⟩

/-- A task whose second sub-input triggers a computation failure. -/
def exTaskFail : Task := ⟨"fib_input_initial", .Individual, [[0], [1], [5]]⟩

/-- C4: a task whose `program_id` is not a recognized identifier is rejected by
`prove_authenticated` with a `MalformedTask` error, and the engine-invocation
count is zero; this holds for every collaborator bundle, so in particular for a
call-counting stub engine. -/
theorem c4_unrecognized_program_id (C : Collaborators S P E) (task : Task)
    (environment : E) (client_id : String) (num_workers : Nat) (order : List Nat)
    (h : task.program_id ≠ "fib_input_initial") :
    prove_authenticated C task environment client_id num_workers order =
      (some (.error (.MalformedTask ("Unsupported program ID: " ++ task.program_id))), 0) := by
  unfold prove_authenticated
  rw [if_neg h]

/-- Closed instance of `c4_unrecognized_program_id` at a concrete task. -/
theorem c4_witness :
    prove_authenticated exCollab ⟨"other_program", .Individual, [[0]]⟩ () "cid" 1 [0] =
      (some (.error (.MalformedTask ("Unsupported program ID: " ++ "other_program"))), 0) :=
  c4_unrecognized_program_id exCollab ⟨"other_program", .Individual, [[0]]⟩ () "cid" 1 [0]
    (by decide)

/-- C5: a task with a recognized `program_id` and an empty sub-input sequence
is rejected by `prove_authenticated` with a `MalformedTask` error, and the
engine-invocation count is zero. -/
theorem c5_empty_inputs (C : Collaborators S P E) (task : Task)
    (environment : E) (client_id : String) (num_workers : Nat) (order : List Nat)
    (hprog : task.program_id = "fib_input_initial")
    (hempty : task.all_inputs = []) :
    prove_authenticated C task environment client_id num_workers order =
      (some (.error (.MalformedTask "No inputs provided for task")), 0) := by
  unfold prove_authenticated prove_fib_task
  rw [if_pos hprog, hempty]
  simp

/-- Closed instance of `c5_empty_inputs` at a concrete task. -/
theorem c5_witness :
    prove_authenticated exCollab ⟨"fib_input_initial", .Individual, []⟩ () "cid" 1 [] =
      (some (.error (.MalformedTask "No inputs provided for task")), 0) :=
  c5_empty_inputs exCollab ⟨"fib_input_initial", .Individual, []⟩ () "cid" 1 []
    (by decide) (by decide)

/-- C7: the per-artifact hashing function is deterministic — any two proofs
with identical serialized bytes receive identical hash strings. -/
theorem c7_hash_deterministic (C : Collaborators S P E) (p1 p2 : P)
    (h : C.serialize_proof p1 = C.serialize_proof p2) :
    generate_proof_hash C p1 = generate_proof_hash C p2 := by
  unfold generate_proof_hash
  rw [h]

/-- Closed instance of `c7_hash_deterministic` at a concrete proof. -/
theorem c7_witness :
    generate_proof_hash exCollab true = generate_proof_hash exCollab true :=
  c7_hash_deterministic exCollab true true rfl

/-- C8: a sub-input whose raw bytes fail to parse makes the unit fail with the
parser's error propagated unchanged, with no failure report submitted (and no
engine invocation). -/
theorem c8_parse_error_propagated (C : Collaborators S P E) (task : Task)
    (environment : E) (client_id : String) (input_index : Nat)
    (input_data : List Nat) (e : ProverError)
    (h : C.parse_triple_input input_data = .error e) :
    processUnit C task environment client_id input_index input_data =
      ⟨some (.error e), [], 0⟩ := by
  unfold processUnit
  rw [h]

/-- Closed instance of `c8_parse_error_propagated` at a concrete raw input. -/
theorem c8_witness :
    processUnit exCollab exTask () "cid" 0 [9] =
      ⟨some (.error (.Other "bad input")), [], 0⟩ :=
  c8_parse_error_propagated exCollab exTask () "cid" 0 [9] (.Other "bad input") rfl

/-- C9: the hash combiner is total — for a task whose type is neither
`ProofHash` nor `AllProofHashes`, an empty hash list yields the empty string
(`unwrap_or_default`) rather than a failure. -/
theorem c9_combine_total_on_empty (C : Collaborators S P E) (task : Task)
    (h1 : task.task_type ≠ .ProofHash) (h2 : task.task_type ≠ .AllProofHashes) :
    combine_proof_hashes C task [] = "" := by
  unfold combine_proof_hashes
  cases htt : task.task_type with
  | Individual => simp
  | ProofHash => exact absurd htt h1
  | AllProofHashes => exact absurd htt h2

/-- Closed instance of `c9_combine_total_on_empty` at a concrete task. -/
theorem c9_witness : combine_proof_hashes exCollab exTask [] = "" :=
  c9_combine_total_on_empty exCollab exTask (by decide) (by decide)

/-- C10: a failed postcard serialization makes `generate_proof_hash` panic
(modelled as `none`), so it is never surfaced as a `ProverError`; when
serialization succeeds the panic branch is unreachable and the lowercase-hex
Keccak digest of the serialized bytes is returned. -/
theorem c10_generate_proof_hash_total (C : Collaborators S P E) (p : P) :
    (C.serialize_proof p = none → generate_proof_hash C p = none) ∧
    (∀ bs, C.serialize_proof p = some bs →
      generate_proof_hash C p = some (bytesToHex (C.keccak256 bs))) := by
  constructor
  · intro h
    unfold generate_proof_hash
    rw [h]
  · intro bs h
    unfold generate_proof_hash
    rw [h]

/-- Closed instance of `c10_generate_proof_hash_total`: the proof `false` fails
serialization and the hash panics; the proof `true` serializes and hashes. -/
theorem c10_witness :
    generate_proof_hash exCollab false = none ∧
    generate_proof_hash exCollab true =
      some (bytesToHex (exCollab.keccak256 [171, 205])) :=
  ⟨(c10_generate_proof_hash_total exCollab false).1 rfl,
   (c10_generate_proof_hash_total exCollab true).2 [171, 205] rfl⟩

/-- C6: when the engine call of a unit fails, the error is propagated
unchanged; exactly one detached failure report — carrying the task, a message
embedding the unit's origin index, the environment and the client identity —
is submitted when the kind is a computation failure (`Stwo`) or a
guest-program failure (`GuestProgram`), and no report is submitted for any
other kind. -/
theorem c6_engine_failure_reporting (C : Collaborators S P E) (task : Task)
    (environment : E) (client_id : String) (input_index : Nat)
    (input_data : List Nat) (si : S) (e : ProverError)
    (hp : C.parse_triple_input input_data = .ok si)
    (he : C.prove_and_validate si task environment client_id = .error e) :
    (processUnit C task environment client_id input_index input_data).result =
      some (.error e) ∧
    (((∃ m, e = .Stwo m) ∨ (∃ m, e = .GuestProgram m)) →
      (processUnit C task environment client_id input_index input_data).reports =
        [⟨task, "Input " ++ toString input_index ++ ": " ++ C.showError e,
          environment, client_id⟩]) ∧
    (¬ ((∃ m, e = .Stwo m) ∨ (∃ m, e = .GuestProgram m)) →
      (processUnit C task environment client_id input_index input_data).reports = []) := by
  unfold processUnit
  rw [hp]
  dsimp only
  rw [he]
  dsimp only
  have hrep : reportable e = true ↔ (∃ m, e = .Stwo m) ∨ (∃ m, e = .GuestProgram m) := by
    cases e <;> simp [reportable]
  by_cases hr : reportable e = true
  · rw [if_pos hr]
    exact ⟨rfl, fun _ => rfl, fun hc => absurd (hrep.mp hr) hc⟩
  · rw [if_neg hr]
    refine ⟨rfl, fun hc => absurd (hrep.mpr hc) hr, fun _ => rfl⟩

/-- Consuming the completion-ordered stream stops at the first error: if the
unit at position `j` fails with `e` and every earlier unit succeeded, the
collected result is exactly `e`. -/
theorem consumeUnits_first_error (e : ProverError) :
    ∀ (l : List (UnitOutput P E)) (j : Nat) (u : UnitOutput P E),
    l.get? j = some u → u.result = some (.error e) →
    (∀ k u', k < j → l.get? k = some u' → ∃ t, u'.result = some (.ok t)) →
    (consumeUnits l).1 = some (.error e) := by
  intro l
  induction l with
  | nil =>
    intro j u hj
    simp at hj
  | cons a rest ih =>
    intro j u hj herr hpre
    cases j with
    | zero =>
      rw [List.get?_cons_zero] at hj
      injection hj with hj
      subst hj
      unfold consumeUnits
      rw [herr]
    | succ j' =>
      obtain ⟨t, ht⟩ := hpre 0 a (Nat.succ_pos j') rfl
      have hrec := ih j' u (by rwa [List.get?_cons_succ] at hj) herr
        (fun k u' hk hg => hpre (k + 1) u' (Nat.succ_lt_succ hk)
          (by rwa [List.get?_cons_succ]))
      unfold consumeUnits
      rw [ht]
      rcases hcr : consumeUnits rest with ⟨r, n⟩
      rw [hcr] at hrec
      simp at hrec
      subst hrec
      rfl

/-- `okOf` projects exactly the successful unit results. -/
theorem okOf_eq_some (u : UnitOutput P E) (t : P × String × Nat) :
    okOf u = some t ↔ u.result = some (.ok t) := by
  unfold okOf
  cases hr : u.result with
  | none => simp
  | some r => cases r <;> simp

/-- A successful unit always carries its own origin index in the third
component of its result triple. -/
theorem processUnit_ok_index (C : Collaborators S P E) (task : Task)
    (environment : E) (client_id : String) (i : Nat) (d : List Nat)
    (t : P × String × Nat)
    (h : (processUnit C task environment client_id i d).result = some (.ok t)) :
    t.2.2 = i := by
  unfold processUnit at h
  cases hp : C.parse_triple_input d with
  | error e => rw [hp] at h; simp at h
  | ok si =>
    rw [hp] at h
    dsimp only at h
    cases he : C.prove_and_validate si task environment client_id with
    | error e =>
      rw [he] at h
      dsimp only at h
      by_cases hr : reportable e = true
      · rw [if_pos hr] at h; simp at h
      · rw [if_neg hr] at h; simp at h
    | ok proof =>
      rw [he] at h
      dsimp only at h
      cases hg : generate_proof_hash C proof with
      | none => rw [hg] at h; simp at h
      | some hh =>
        rw [hg] at h
        simp at h
        rw [← h]

/-- A successful collection returns exactly the successful payloads of the
consumed units, in consumption order, and every consumed unit succeeded. -/
theorem consumeUnits_ok :
    ∀ (l : List (UnitOutput P E)) (ts : List (P × String × Nat)) (n : Nat),
    consumeUnits l = (some (.ok ts), n) →
    ts = l.filterMap okOf ∧ ∀ u ∈ l, ∃ t, okOf u = some t := by
  intro l
  induction l with
  | nil =>
    intro ts n h
    unfold consumeUnits at h
    simp at h
    obtain ⟨hts, _⟩ := h
    subst hts
    exact ⟨rfl, by intro u hu; simp at hu⟩
  | cons a rest ih =>
    intro ts n h
    unfold consumeUnits at h
    cases ha : a.result with
    | none => rw [ha] at h; simp at h
    | some r =>
      rw [ha] at h
      cases r with
      | error e => simp at h
      | ok t =>
        rcases hcr : consumeUnits rest with ⟨r', n'⟩
        rw [hcr] at h
        cases r' with
        | none => simp at h
        | some rr =>
          cases rr with
          | error e => simp at h
          | ok ts' =>
            simp at h
            obtain ⟨hts, _⟩ := h
            obtain ⟨h1, h2⟩ := ih ts' n' hcr
            subst hts
            have hoka : okOf a = some t := by unfold okOf; rw [ha]
            constructor
            · rw [List.filterMap_cons, hoka, h1]
            · intro u hu
              rcases List.mem_cons.mp hu with hu | hu
              · exact ⟨t, hu ▸ hoka⟩
              · exact h2 u hu

/-- Reading every position of a list in order through `get?` is the identity. -/
theorem filterMap_get_range {α : Type} (l : List α) :
    (List.range l.length).filterMap (fun k => l.get? k) = l := by
  induction l with
  | nil => simp
  | cons a t ih =>
    rw [List.length_cons, List.range_succ_eq_map, List.filterMap_cons]
    simp only [List.get?_cons_zero]
    rw [List.filterMap_map]
    have hc : ((fun k => (a :: t).get? k) ∘ Nat.succ) = fun k => t.get? k := by
      funext k
      rfl
    rw [hc, ih]

/-- When the completion order is a permutation of the unit indices, the
completion-ordered unit list is a permutation of the origin-ordered one. -/
theorem completedUnits_perm (C : Collaborators S P E) (task : Task)
    (environment : E) (client_id : String) (order : List Nat)
    (horder : order.Perm (List.range task.all_inputs.length)) :
    (completedUnits C task environment client_id order).Perm
      (taskUnits C task environment client_id) := by
  have hlen : (taskUnits C task environment client_id).length = task.all_inputs.length := by
    unfold taskUnits
    rw [List.length_map, List.enum_length]
  have h1 := List.Perm.filterMap
    (fun k => (taskUnits C task environment client_id).get? k) horder
  have h2 : (List.range (taskUnits C task environment client_id).length).filterMap
      (fun k => (taskUnits C task environment client_id).get? k) =
      taskUnits C task environment client_id := filterMap_get_range _
  rw [hlen] at h2
  unfold completedUnits
  have h3 : ((List.range task.all_inputs.length).filterMap
      (fun k => (taskUnits C task environment client_id).get? k)).Perm
      (taskUnits C task environment client_id) := by
    rw [h2]
  exact h1.trans h3

/-- Pointwise description of `filterMap` over an enumerated list when every
entry maps to `some`: position `i` holds the image of `(n + i, l[i])`. -/
theorem filterMap_enumFrom_get {D B : Type} (g : Nat × D → Option B) :
    ∀ (l : List D) (n : Nat),
    (∀ p ∈ List.enumFrom n l, (g p).isSome) →
    ∀ i, i < l.length →
    ∃ d b, l.get? i = some d ∧ g (n + i, d) = some b ∧
      ((List.enumFrom n l).filterMap g).get? i = some b := by
  intro l
  induction l with
  | nil =>
    intro n h i hi
    simp at hi
  | cons a t ih =>
    intro n h i hi
    have hga : (g (n, a)).isSome := h (n, a) (by simp)
    obtain ⟨b0, hb0⟩ := Option.isSome_iff_exists.mp hga
    cases i with
    | zero =>
      refine ⟨a, b0, rfl, by simpa using hb0, ?_⟩
      rw [List.enumFrom_cons, List.filterMap_cons, hb0]
      rfl
    | succ i' =>
      have hi' : i' < t.length := by
        rw [List.length_cons] at hi
        omega
      obtain ⟨d, b, hd, hb, hfm⟩ := ih (n + 1)
        (fun p hp => h p (by rw [List.enumFrom_cons]; exact List.mem_cons_of_mem _ hp)) i' hi'
      refine ⟨d, b, by simpa using hd, ?_, ?_⟩
      · have hnn : n + (i' + 1) = (n + 1) + i' := by omega
        rw [hnn]
        exact hb
      · rw [List.enumFrom_cons, List.filterMap_cons, hb0, List.get?_cons_succ]
        exact hfm

/-- Master description of the success path of `prove_authenticated`: under any
completion order that is a permutation of the unit indices, a successful result
has full-length output lists, the task hash is the combiner applied to the
returned hash list, and position `i` of both lists is exactly what unit `i`
produced for sub-input `i`. -/
theorem prove_fib_success_spec (C : Collaborators S P E) (task : Task)
    (environment : E) (client_id : String) (num_workers : Nat) (order : List Nat)
    (proofs : List P) (taskHash : String) (hashes : List String)
    (horder : order.Perm (List.range task.all_inputs.length))
    (hres : (prove_authenticated C task environment client_id num_workers order).1 =
      some (.ok (proofs, taskHash, hashes))) :
    proofs.length = task.all_inputs.length ∧
    hashes.length = task.all_inputs.length ∧
    0 < task.all_inputs.length ∧
    taskHash = combine_proof_hashes C task hashes ∧
    ∀ i, i < task.all_inputs.length →
      ∃ d p h, (task.all_inputs).get? i = some d ∧ proofs.get? i = some p ∧
        hashes.get? i = some h ∧
        (processUnit C task environment client_id i d).result = some (.ok (p, h, i)) := by
  by_cases hprog : task.program_id = "fib_input_initial"
  case neg =>
    exfalso
    unfold prove_authenticated at hres
    rw [if_neg hprog] at hres
    simp at hres
  unfold prove_authenticated at hres
  rw [if_pos hprog] at hres
  unfold prove_fib_task at hres
  by_cases hemp : (task.all_inputs).isEmpty = true
  case pos =>
    rw [if_pos hemp] at hres
    simp at hres
  rw [if_neg hemp] at hres
  have hL : 0 < task.all_inputs.length := by
    cases hx : task.all_inputs with
    | nil => rw [hx] at hemp; exact absurd rfl hemp
    | cons a t => simp
  rcases hcr : consumeUnits (completedUnits C task environment client_id order) with ⟨r, n⟩
  rw [hcr] at hres
  cases r with
  | none => simp at hres
  | some rr =>
    cases rr with
    | error e => simp at hres
    | ok results =>
      simp only at hres
      simp at hres
      obtain ⟨hproofs, htask, hhashes⟩ := hres
      obtain ⟨hconsume_ts, hallok⟩ := consumeUnits_ok _ results n hcr
      have hperm := completedUnits_perm C task environment client_id order horder
      have hcanon0 : (taskUnits C task environment client_id).filterMap okOf =
          (task.all_inputs).enum.filterMap
            (fun p => okOf (processUnit C task environment client_id p.1 p.2)) := by
        unfold taskUnits
        rw [List.filterMap_map]
        rfl
      have hresperm : results.Perm
          ((task.all_inputs).enum.filterMap
            (fun p => okOf (processUnit C task environment client_id p.1 p.2))) := by
        rw [hconsume_ts, ← hcanon0]
        exact List.Perm.filterMap okOf hperm
      have hallok' : ∀ p ∈ (task.all_inputs).enum,
          (okOf (processUnit C task environment client_id p.1 p.2)).isSome = true := by
        intro p hp
        have hmem : processUnit C task environment client_id p.1 p.2 ∈
            taskUnits C task environment client_id := by
          unfold taskUnits
          exact List.mem_map_of_mem _ hp
        have hmem2 := (hperm.mem_iff).mpr hmem
        obtain ⟨t, ht⟩ := hallok _ hmem2
        rw [ht]
        rfl
      have hpoint : ∀ i, i < task.all_inputs.length →
          ∃ d b, (task.all_inputs).get? i = some d ∧
            okOf (processUnit C task environment client_id i d) = some b ∧
            ((task.all_inputs).enum.filterMap
              (fun p => okOf (processUnit C task environment client_id p.1 p.2))).get? i =
              some b := by
        intro i hi
        have hh := filterMap_enumFrom_get
          (fun p => okOf (processUnit C task environment client_id p.1 p.2))
          task.all_inputs 0 hallok' i hi
        simpa using hh
      have hcanlen : ((task.all_inputs).enum.filterMap
          (fun p => okOf (processUnit C task environment client_id p.1 p.2))).length =
          task.all_inputs.length := by
        have hle : ((task.all_inputs).enum.filterMap
            (fun p => okOf (processUnit C task environment client_id p.1 p.2))).length ≤
            task.all_inputs.length := by
          have h0 := List.length_filterMap_le
            (fun p => okOf (processUnit C task environment client_id p.1 p.2))
            (task.all_inputs).enum
          rw [List.enum_length] at h0
          exact h0
        obtain ⟨d, b, hd, hb, hcan⟩ := hpoint (task.all_inputs.length - 1) (by omega)
        obtain ⟨hlt, _⟩ := List.get?_eq_some.mp hcan
        omega
      have hcankeys : ∀ i (hi : i < ((task.all_inputs).enum.filterMap
          (fun p => okOf (processUnit C task environment client_id p.1 p.2))).length),
          (((task.all_inputs).enum.filterMap
            (fun p => okOf (processUnit C task environment client_id p.1 p.2))).get
              ⟨i, hi⟩).2.2 = i := by
        intro i hi
        obtain ⟨d, b, hd, hb, hcan⟩ := hpoint i (by omega)
        have hkey : b.2.2 = i := processUnit_ok_index C task environment client_id i d b
          ((okOf_eq_some _ _).mp hb)
        have hg := List.get?_eq_get hi
        rw [hg] at hcan
        injection hcan with hcan
        rw [hcan, hkey]
      have hcansorted : List.Pairwise keyLt
          ((task.all_inputs).enum.filterMap
            (fun p => okOf (processUnit C task environment client_id p.1 p.2))) := by
        rw [List.pairwise_iff_get]
        intro i j hij
        have hki := hcankeys i.1 i.2
        have hkj := hcankeys j.1 j.2
        unfold keyLt
        rw [hki, hkj]
        exact hij
      have hsp : (List.insertionSort keyLe results).Perm results :=
        List.perm_insertionSort keyLe results
      have hscanon : (List.insertionSort keyLe results).Perm
          ((task.all_inputs).enum.filterMap
            (fun p => okOf (processUnit C task environment client_id p.1 p.2))) :=
        hsp.trans hresperm
      have hssorted_le : List.Pairwise keyLe (List.insertionSort keyLe results) :=
        List.sorted_insertionSort keyLe results
      have hcannodup : (((task.all_inputs).enum.filterMap
          (fun p => okOf (processUnit C task environment client_id p.1 p.2))).map
            (fun t => t.2.2)).Nodup := by
        have h1 : List.Pairwise (fun a b : P × String × Nat => a.2.2 < b.2.2)
            ((task.all_inputs).enum.filterMap
              (fun p => okOf (processUnit C task environment client_id p.1 p.2))) :=
          hcansorted.imp (fun h => h)
        have h2 := (List.pairwise_map).mpr h1
        exact h2.imp (fun h => Nat.ne_of_lt h)
      have hsnodup : ((List.insertionSort keyLe results).map (fun t => t.2.2)).Nodup :=
        ((hscanon.map (fun t => t.2.2)).nodup_iff).mpr hcannodup
      have hsne : List.Pairwise (fun a b : P × String × Nat => a.2.2 ≠ b.2.2)
          (List.insertionSort keyLe results) :=
        (List.pairwise_map).mp hsnodup
      have hssorted_lt : List.Pairwise keyLt (List.insertionSort keyLe results) :=
        List.Pairwise.imp₂ (fun a b h1 h2 => Nat.lt_of_le_of_ne h1 h2) hssorted_le hsne
      have heq : List.insertionSort keyLe results =
          (task.all_inputs).enum.filterMap
            (fun p => okOf (processUnit C task environment client_id p.1 p.2)) :=
        List.eq_of_perm_of_sorted hscanon hssorted_lt hcansorted
      have hslen : (List.insertionSort keyLe results).length = task.all_inputs.length := by
        rw [heq, hcanlen]
      refine ⟨?_, ?_, hL, ?_, ?_⟩
      · rw [← hproofs, List.length_map, hslen]
      · rw [← hhashes, List.length_map, hslen]
      · rw [← htask, ← hhashes]
      · intro i hi
        obtain ⟨d, b, hd, hb, hcan⟩ := hpoint i hi
        rw [← heq] at hcan
        have hkey : b.2.2 = i := processUnit_ok_index C task environment client_id i d b
          ((okOf_eq_some _ _).mp hb)
        refine ⟨d, b.1, b.2.1, hd, ?_, ?_, ?_⟩
        · rw [← hproofs, List.get?_map, hcan]
          rfl
        · rw [← hhashes, List.get?_map, hcan]
          rfl
        · have hr := (okOf_eq_some _ _).mp hb
          have hbe : b = (b.1, b.2.1, i) := by
            rw [← hkey]
          rw [← hbe]
          exact hr

/-- C1: for a non-empty input sequence and a worker budget between 1 and the
input length, a successful `prove_authenticated` call returns artifact and
hash lists of the input's length whose position `i` holds exactly unit `i`'s
proof and hash for sub-input `i`, for every completion order of the concurrent
units. -/
theorem c1_ordered_outputs (C : Collaborators S P E) (task : Task)
    (environment : E) (client_id : String) (num_workers : Nat) (order : List Nat)
    (proofs : List P) (taskHash : String) (hashes : List String)
    (hW1 : 1 ≤ num_workers) (hW2 : num_workers ≤ task.all_inputs.length)
    (horder : order.Perm (List.range task.all_inputs.length))
    (hres : (prove_authenticated C task environment client_id num_workers order).1 =
      some (.ok (proofs, taskHash, hashes))) :
    proofs.length = task.all_inputs.length ∧
    hashes.length = task.all_inputs.length ∧
    ∀ i, i < task.all_inputs.length →
      ∃ d p h, (task.all_inputs).get? i = some d ∧ proofs.get? i = some p ∧
        hashes.get? i = some h ∧
        (processUnit C task environment client_id i d).result = some (.ok (p, h, i)) := by
  obtain ⟨h1, h2, _, _, h5⟩ := prove_fib_success_spec C task environment client_id
    num_workers order proofs taskHash hashes horder hres
  exact ⟨h1, h2, h5⟩

/-- Closed instance of `c1_ordered_outputs`: three inputs, worker budget 2,
completion order `[2, 0, 1]`; the outputs are full-length and in origin
order. -/
theorem c1_witness :
    (1 ≤ 2 ∧ 2 ≤ exTask.all_inputs.length) ∧
    ([true, true, true].length = exTask.all_inputs.length ∧
     ["acce", "acce", "acce"].length = exTask.all_inputs.length ∧
     ∀ i, i < exTask.all_inputs.length →
       ∃ d p h, (exTask.all_inputs).get? i = some d ∧
         ([true, true, true] : List Bool).get? i = some p ∧
         (["acce", "acce", "acce"] : List String).get? i = some h ∧
         (processUnit exCollab exTask () "cid" i d).result = some (.ok (p, h, i))) :=
  ⟨⟨by decide, by decide⟩,
   c1_ordered_outputs exCollab exTask () "cid" 2 [2, 0, 1] [true, true, true] "acce"
     ["acce", "acce", "acce"] (by decide) (by decide) (by decide) rfl⟩

/-- C2: on a successfully completed task, a `ProofHash` or `AllProofHashes`
task type makes the task hash the combiner applied to the full ordered hash
list, and any other task type makes it the first element of that list (the
hash of the sub-input at origin index 0). -/
theorem c2_combination_policy (C : Collaborators S P E) (task : Task)
    (environment : E) (client_id : String) (num_workers : Nat) (order : List Nat)
    (proofs : List P) (taskHash : String) (hashes : List String)
    (horder : order.Perm (List.range task.all_inputs.length))
    (hres : (prove_authenticated C task environment client_id num_workers order).1 =
      some (.ok (proofs, taskHash, hashes))) :
    ((task.task_type = .ProofHash ∨ task.task_type = .AllProofHashes) →
      taskHash = C.combineHashes hashes) ∧
    ((task.task_type ≠ .ProofHash ∧ task.task_type ≠ .AllProofHashes) →
      ∃ h0 rest, hashes = h0 :: rest ∧ taskHash = h0) := by
  obtain ⟨_, hlen, hL, hcomb, _⟩ := prove_fib_success_spec C task environment client_id
    num_workers order proofs taskHash hashes horder hres
  constructor
  · intro htt
    rw [hcomb]
    unfold combine_proof_hashes
    rcases htt with htt | htt <;> rw [htt]
  · intro hne
    obtain ⟨hne1, hne2⟩ := hne
    cases hx : hashes with
    | nil =>
      rw [hx] at hlen
      simp at hlen
      omega
    | cons h0 rest =>
      refine ⟨h0, rest, rfl, ?_⟩
      rw [hcomb]
      unfold combine_proof_hashes
      cases htt : task.task_type with
      | Individual => rw [hx]; rfl
      | ProofHash => exact absurd htt hne1
      | AllProofHashes => exact absurd htt hne2

/-- Closed instance of `c2_combination_policy`: under `AllProofHashes` the
task hash is the combiner applied to both per-input hashes. -/
theorem c2_witness :
    ((exTaskAll.task_type = .ProofHash ∨ exTaskAll.task_type = .AllProofHashes) →
      "acce|acce" = exCollab.combineHashes ["acce", "acce"]) ∧
    ((exTaskAll.task_type ≠ .ProofHash ∧ exTaskAll.task_type ≠ .AllProofHashes) →
      ∃ h0 rest, (["acce", "acce"] : List String) = h0 :: rest ∧ "acce|acce" = h0) :=
  c2_combination_policy exCollab exTaskAll () "cid" 1 [1, 0] [true, true] "acce|acce"
    ["acce", "acce"] (by decide) rfl

/-- C3: if a unit fails and every unit completing before it succeeded, the
overall result of `prove_authenticated` is exactly that unit's error — a
`ProverError`, not a partial artifact or hash list — and the outputs of any
later units are discarded. -/
theorem c3_fail_fast (C : Collaborators S P E) (task : Task) (environment : E)
    (client_id : String) (num_workers : Nat) (order : List Nat) (j : Nat)
    (u : UnitOutput P E) (e : ProverError)
    (hprog : task.program_id = "fib_input_initial")
    (hj : (completedUnits C task environment client_id order).get? j = some u)
    (herr : u.result = some (.error e))
    (hpre : ∀ k u', k < j →
      (completedUnits C task environment client_id order).get? k = some u' →
      ∃ t, u'.result = some (.ok t)) :
    (prove_authenticated C task environment client_id num_workers order).1 =
      some (.error e) := by
  have hne : (task.all_inputs).isEmpty = false := by
    cases hemp : task.all_inputs with
    | nil =>
      exfalso
      have hz : completedUnits C task environment client_id order = [] := by
        unfold completedUnits taskUnits
        rw [hemp]
        simp
      rw [hz] at hj
      simp at hj
    | cons a t => rfl
  unfold prove_authenticated
  rw [if_pos hprog]
  unfold prove_fib_task
  rw [if_neg (by simp [hne])]
  have hcons := consumeUnits_first_error e
    (completedUnits C task environment client_id order) j u hj herr hpre
  rcases hcr : consumeUnits (completedUnits C task environment client_id order) with ⟨r, n⟩
  rw [hcr] at hcons
  simp at hcons
  subst hcons
  rfl

/-- Closed instance of `c3_fail_fast`: under completion order `[1, 0, 2]` the
failing unit 1 completes first and its computation failure is the sole
result. -/
theorem c3_witness :
    (prove_authenticated exCollab exTaskFail () "cid" 2 [1, 0, 2]).1 =
      some (.error (.Stwo "constraints not satisfied")) :=
  c3_fail_fast exCollab exTaskFail () "cid" 2 [1, 0, 2] 0
    (processUnit exCollab exTaskFail () "cid" 1 [1]) (.Stwo "constraints not satisfied")
    rfl rfl rfl (fun k _ hk _ => absurd hk (Nat.not_lt_zero k))

/-- Closed instance of `c6_engine_failure_reporting`: the structured input
`[1]` fails with a computation failure and produces exactly one report naming
origin index 1. -/
theorem c6_witness :
    (processUnit exCollab exTaskFail () "cid" 1 [1]).result =
      some (.error (.Stwo "constraints not satisfied")) ∧
    (((∃ m, (ProverError.Stwo "constraints not satisfied") = .Stwo m) ∨
      (∃ m, (ProverError.Stwo "constraints not satisfied") = .GuestProgram m)) →
      (processUnit exCollab exTaskFail () "cid" 1 [1]).reports =
        [⟨exTaskFail, "Input " ++ toString 1 ++ ": " ++
            exCollab.showError (.Stwo "constraints not satisfied"), (), "cid"⟩]) ∧
    (¬ ((∃ m, (ProverError.Stwo "constraints not satisfied") = .Stwo m) ∨
      (∃ m, (ProverError.Stwo "constraints not satisfied") = .GuestProgram m)) →
      (processUnit exCollab exTaskFail () "cid" 1 [1]).reports = []) :=
  c6_engine_failure_reporting exCollab exTaskFail () "cid" 1 [1]
    [1] (.Stwo "constraints not satisfied") rfl rfl

end NexusCLI
